import Mathlib

/-!
SpsModelSynth: a shallow embedding of `src/algorithms/synthesis/spsmodelsynth.cpp`.

The embedding follows the C++ source function by function.

* `Real` of the source (a floating-point type) is an arbitrary type `R`; the
  arithmetic the source performs on it is a record `Arith R` of operations, so
  every definition is parametric in the arithmetic and executable for any
  executable instance.  `Sym` is the free (symbolic) instance: a value is the
  expression the source evaluates to produce it.
* `std::vector<std::complex<Real>>` is `List (Cplx R)`.
* `int` is `Int`.  No arithmetic of the embedded functions can overflow a
  32-bit `int` (the only sums are `floor(fftSize/2)+1` and `N-i-1` with
  `0 ≤ i < N/2+1`), so no reduction modulo `2^32` is needed.
* `operator[]` outside the vector is undefined behaviour in C++; here it is the
  fault `Fault.outOfRange`.  `resize` with a negative `int` (converted to a
  huge `size_t`) throws `std::length_error`; here `Fault.lengthError`.
* `rand()` is a global stream; `phase i` is the value assigned to the local
  variable `phase` in iteration `i` of the loop of `stochasticModelSynth`.
* The sinusoidal synthesiser `_sineModelSynth` is a collaborator whose code is
  not part of the file; it is a parameter `sine`.
-/

namespace SpsModelSynth

/-- One `std::complex<Real>` value. -/
structure Cplx (R : Type) where
  re : R
  im : R
deriving DecidableEq, Repr

/-- The arithmetic on `Real` used by the source. -/
structure Arith (R : Type) where
  zero : R
  one : R
  ten : R
  twenty : R
  add : R → R → R
  mul : R → R → R
  div : R → R → R
  powf : R → R → R
  cos : R → R
  sin : R → R

/-- Faults of a call: `E` is the type of the errors the collaborator raises. -/
inductive Fault (E : Type) where
  | lengthError : Fault E
  | outOfRange : Fault E
  | collaborator : E → Fault E
deriving DecidableEq, Repr

/-- The element `v[k]` of a vector for an `int` index, if it exists. -/
def bin? {R : Type} (v : List (Cplx R)) (k : Int) : Option (Cplx R) :=
  if 0 ≤ k then v[k.toNat]? else none

/-- Read access `v[k]`. -/
def readBin {R E : Type} (v : List (Cplx R)) (k : Int) : Except (Fault E) (Cplx R) :=
  match bin? v k with
  | some c => .ok c
  | none => .error .outOfRange

/-- The statement `v[k].real(x)`. -/
def setReal {R E : Type} (v : List (Cplx R)) (k : Int) (x : R) :
    Except (Fault E) (List (Cplx R)) :=
  match bin? v k with
  | some c => .ok (v.set k.toNat ⟨x, c.im⟩)
  | none => .error .outOfRange

/-- The statement `v[k].imag(x)`. -/
def setImag {R E : Type} (v : List (Cplx R)) (k : Int) (x : R) :
    Except (Fault E) (List (Cplx R)) :=
  match bin? v k with
  | some c => .ok (v.set k.toNat ⟨c.re, x⟩)
  | none => .error .outOfRange

/-- The call `v.resize(n)` with an `int` argument: keeps the first `n` elements and
pads with value-initialised (zero) elements. -/
def resize {R E : Type} (A : Arith R) (v : List (Cplx R)) (n : Int) :
    Except (Fault E) (List (Cplx R)) :=
  if n < 0 then .error .lengthError
  else .ok (v.take n.toNat ++ List.replicate (n.toNat - v.length) ⟨A.zero, A.zero⟩)

/-- The loop `for (int i = start; i < start + count; ++i) body`, stopping at the first
fault. -/
def loop {σ ε : Type} (body : Nat → σ → Except ε σ) : Nat → Nat → σ → Except ε σ
  | 0, _, s => .ok s
  | count + 1, i, s =>
    match body i s with
    | .ok s' => loop body count (i + 1) s'
    | .error e => .error e

/-- The conversion to `int` of the `double` expression `(N/2.)+1`: the value is
`(N+2)/2` exactly, and the conversion truncates toward zero. -/
def halfPlusOne (N : Int) : Int := Int.tdiv (N + 2) 2

/-- The body of the loop of `initializeFFT`. -/
def initializeBody {R E : Type} (A : Arith R) (i : Nat) (fft : List (Cplx R)) :
    Except (Fault E) (List (Cplx R)) :=
  match setReal fft i A.zero with
  | .ok f1 => setImag f1 i A.zero
  | .error e => .error e

/-- `SpsModelSynth::initializeFFT`. -/
def initializeFFT {R E : Type} (A : Arith R) (fft : List (Cplx R)) (sizeFFT : Int) :
    Except (Fault E) (List (Cplx R)) :=
  match resize A fft sizeFFT with
  | .ok f0 => loop (initializeBody A) sizeFFT.toNat 0 f0
  | .error e => .error e

/-- The amplitude `powf(10.f, (magdB / 20.f))`. -/
def amplitude {R : Type} (A : Arith R) (magdB : R) : R :=
  A.powf A.ten (A.div magdB A.twenty)

/-- The body of the loop of `stochasticModelSynth`. -/
def stochasticBody {R E : Type} (A : Arith R) (phase : Nat → R) (N : Int) (i : Nat)
    (fftStoc : List (Cplx R)) : Except (Fault E) (List (Cplx R)) :=
  let ph := phase i
  let magdB := A.one
  match setReal fftStoc i (A.mul (amplitude A magdB) (A.cos ph)) with
  | .error e => .error e
  | .ok f1 =>
    match setImag f1 i (A.mul (amplitude A magdB) (A.sin ph)) with
    | .error e => .error e
    | .ok f2 =>
      match setReal f2 (N - i - 1) (A.mul (amplitude A magdB) (A.cos ph)) with
      | .error e => .error e
      | .ok f3 => setImag f3 (N - i - 1) (A.mul (amplitude A magdB) (A.sin ph))

/-- `SpsModelSynth::stochasticModelSynth`: the last argument is the content of
`fftStoc` on entry, the result its content on return. -/
def stochasticModelSynth {R E : Type} (A : Arith R) (phase : Nat → R)
    (_stocEnv : List R) (_H : Int) (N : Int) (fftStoc : List (Cplx R)) :
    Except (Fault E) (List (Cplx R)) :=
  let hN := halfPlusOne N
  match resize A fftStoc N with
  | .error e => .error e
  | .ok f0 => loop (stochasticBody A phase N) hN.toNat 0 f0

/-- The output size `(int)floor(_fftSize/2.0) + 1` of `compute`. -/
def outSize (fftSize : Int) : Int := Int.fdiv fftSize 2 + 1

/-- The call `stochasticModelSynth(stocenv, parameter("hopSize").toInt(), outSize, fftStoc)`
of `compute`, on the fresh local vector `fftStoc`. -/
def residualFrame {R E : Type} (A : Arith R) (phase : Nat → R) (fftSize hopSize : Int)
    (stocenv : List R) : Except (Fault E) (List (Cplx R)) :=
  stochasticModelSynth A phase stocenv hopSize (outSize fftSize) []

/-- The body of the mixing loop of `compute`. -/
def mixBody {R E : Type} (A : Arith R) (fftStoc : List (Cplx R)) (i : Nat)
    (outfft : List (Cplx R)) : Except (Fault E) (List (Cplx R)) :=
  match readBin outfft i with
  | .error e => .error e
  | .ok a =>
    match readBin fftStoc i with
    | .error e => .error e
    | .ok b =>
      match setReal outfft i (A.add a.re b.re) with
      | .error e => .error e
      | .ok o1 =>
        match readBin o1 i with
        | .error e => .error e
        | .ok a1 =>
          match readBin fftStoc i with
          | .error e => .error e
          | .ok b1 => setImag o1 i (A.add a1.im b1.im)

/-- How a call of `compute` ends: the content of the output buffer `outfft`, and the
fault that ended the call, if any.  After `Fault.outOfRange` (undefined behaviour) the
content is reported as it was before the faulting loop. -/
structure Outcome (R E : Type) where
  outfft : List (Cplx R)
  error : Option (Fault E)
deriving DecidableEq, Repr

/-- The sinusoidal collaborator: from the three track vectors and the content of the
buffer bound to its output, the content of that buffer after the call and the error it
raised, if any. -/
abbrev SineModel (R E : Type) : Type :=
  List R → List R → List R → List (Cplx R) → List (Cplx R) × Option E

/-- `SpsModelSynth::compute`: the last argument is the content of `outfft` before the
call. -/
def compute {R E : Type} (A : Arith R) (sine : SineModel R E) (phase : Nat → R)
    (fftSize hopSize : Int) (magnitudes frequencies phases stocenv : List R)
    (outfft : List (Cplx R)) : Outcome R E :=
  match initializeFFT A outfft (outSize fftSize) with
  | .error e => ⟨outfft, some e⟩
  | .ok out0 =>
    match sine magnitudes frequencies phases out0 with
    | (out1, some e) => ⟨out1, some (.collaborator e)⟩
    | (out1, none) =>
      match residualFrame A phase fftSize hopSize stocenv with
      | .error e => ⟨out1, some e⟩
      | .ok fftStoc =>
        match loop (mixBody A fftStoc) out1.length 0 out1 with
        | .error e => ⟨out1, some e⟩
        | .ok out2 => ⟨out2, none⟩

/-- The body of the copy/mirror loop of `resample`. -/
def resampleBody {R E : Type} (fftin : List (Cplx R)) (sizeOut : Int) (i : Nat)
    (fftout : List (Cplx R)) : Except (Fault E) (List (Cplx R)) :=
  match readBin fftin i with
  | .error e => .error e
  | .ok a =>
    match setReal fftout i a.re with
    | .error e => .error e
    | .ok f1 =>
      match setImag f1 i a.im with
      | .error e => .error e
      | .ok f2 =>
        match setReal f2 (sizeOut - i - 1) a.re with
        | .error e => .error e
        | .ok f3 => setImag f3 (sizeOut - i - 1) a.im

/-- `SpsModelSynth::resample`, from the spectrum `fftin` of the input (the output of the
forward-transform collaborator) to the spectrum `fftout` handed to the inverse
transform. -/
def resample {R E : Type} (A : Arith R) (fftin : List (Cplx R)) (sizeOut : Int) :
    Except (Fault E) (List (Cplx R)) :=
  let sizeIn : Int := fftin.length
  match initializeFFT A [] sizeOut with
  | .error e => .error e
  | .ok fftout =>
    let hN := halfPlusOne sizeIn
    loop (resampleBody fftin sizeOut) hN.toNat 0 fftout

/-! ### The symbolic arithmetic -/

/-- Symbolic values: the expression the source evaluates. `atom i` is an input value. -/
inductive Sym where
  | zero : Sym
  | one : Sym
  | ten : Sym
  | twenty : Sym
  | atom : Nat → Sym
  | add : Sym → Sym → Sym
  | mul : Sym → Sym → Sym
  | div : Sym → Sym → Sym
  | powf : Sym → Sym → Sym
  | cos : Sym → Sym
  | sin : Sym → Sym
deriving DecidableEq, Repr

/-- The free arithmetic: every operation builds the expression. -/
def symArith : Arith Sym :=
  ⟨.zero, .one, .ten, .twenty, .add, .mul, .div, .powf, .cos, .sin⟩

/-- A stand-in for the sinusoidal collaborator at concrete inputs: it checks the track
lengths, raises error `0` without touching its output buffer when they differ, and
otherwise leaves the (zeroed) buffer as it is, the spectrum of no sinusoid. -/
def checkedSilence {R : Type} : SineModel R Nat :=
  fun magnitudes frequencies phases buf =>
    if magnitudes.length = frequencies.length ∧ frequencies.length = phases.length then
      (buf, none)
    else (buf, some 0)

/-- The value written to bin `i` and to its mirror bin in iteration `i` of the loop of
`stochasticModelSynth`. -/
def binValue {R : Type} (A : Arith R) (phase : Nat → R) (i : Nat) : Cplx R :=
  ⟨A.mul (amplitude A A.one) (A.cos (phase i)), A.mul (amplitude A A.one) (A.sin (phase i))⟩

/-- The iteration, among the first `count` iterations of the loop of
`stochasticModelSynth` on `n` bins, that wrote bin `k` last (`none`: not written yet).
Iteration `i` writes bin `i` and bin `n-1-i`. -/
def lastWriter (n count k : Nat) : Option Nat :=
  if k < count then
    if n - 1 - k < count then some (if k ≤ n - 1 - k then n - 1 - k else k) else some k
  else if n - 1 - k < count then some (n - 1 - k) else none

/-- The iteration whose phase bin `k` of the `n`-bin frame carries when the loop of
`stochasticModelSynth` has run its `n/2+1` iterations. -/
def source (n k : Nat) : Nat :=
  if k ≤ n / 2 then
    if n - 1 - k ≤ n / 2 then (if k ≤ n - 1 - k then n - 1 - k else k) else k
  else n - 1 - k

/-! ### Basic facts on vector accesses and loops -/

theorem bin?_natCast {R : Type} (v : List (Cplx R)) (i : Nat) : bin? v (i : Int) = v[i]? := by
  simp [bin?]

theorem readBin_nat {R E : Type} (v : List (Cplx R)) (i : Nat) (h : i < v.length) :
    (readBin v (i : Int) : Except (Fault E) (Cplx R)) = .ok v[i] := by
  simp [readBin, bin?_natCast, List.getElem?_eq_getElem h]

theorem setReal_nat {R E : Type} (v : List (Cplx R)) (i : Nat) (x : R) (h : i < v.length) :
    (setReal v (i : Int) x : Except (Fault E) _) = .ok (v.set i ⟨x, v[i].im⟩) := by
  simp [setReal, bin?_natCast, List.getElem?_eq_getElem h]

theorem setImag_nat {R E : Type} (v : List (Cplx R)) (i : Nat) (y : R) (h : i < v.length) :
    (setImag v (i : Int) y : Except (Fault E) _) = .ok (v.set i ⟨v[i].re, y⟩) := by
  simp [setImag, bin?_natCast, List.getElem?_eq_getElem h]

theorem setReal_setImag {R E : Type} (v : List (Cplx R)) (i : Nat) (x y : R)
    (h : i < v.length) :
    (setImag (v.set i ⟨x, v[i].im⟩) (i : Int) y : Except (Fault E) _)
      = .ok (v.set i ⟨x, y⟩) := by
  rw [setImag_nat _ _ _ (by simpa using h)]
  simp

theorem loop_inv {σ ε : Type} (body : Nat → σ → Except ε σ) (P : Nat → σ → Prop) :
    ∀ (count i : Nat) (s : σ), P i s →
      (∀ j t, i ≤ j → j < i + count → P j t → ∃ t', body j t = .ok t' ∧ P (j + 1) t') →
      ∃ s', loop body count i s = .ok s' ∧ P (i + count) s' := by
  intro count
  induction count with
  | zero => intro i s h _; exact ⟨s, rfl, by simpa using h⟩
  | succ c ih =>
    intro i s h hstep
    obtain ⟨t, ht, hP⟩ := hstep i s (Nat.le_refl i) (by omega) h
    obtain ⟨s', hs', hP'⟩ := ih (i + 1) t hP (fun j u h1 h2 hu => hstep j u (by omega) (by omega) hu)
    refine ⟨s', ?_, ?_⟩
    · simp [loop, ht, hs']
    · have : i + (c + 1) = i + 1 + c := by omega
      rw [this]; exact hP'

theorem stochasticBody_ok {R E : Type} (A : Arith R) (phase : Nat → R) (n i : Nat)
    (f : List (Cplx R)) (hlen : f.length = n) (hi : i < n) :
    (stochasticBody A phase (n : Int) i f : Except (Fault E) _)
      = .ok ((f.set i (binValue A phase i)).set (n - 1 - i) (binValue A phase i)) := by
  have hj : ((n : Int) - (i : Int) - 1) = ((n - 1 - i : Nat) : Int) := by omega
  unfold stochasticBody
  simp only [hj]
  rw [setReal_nat f i _ (by omega)]
  simp only
  rw [setReal_setImag f i _ _ (by omega)]
  simp only
  rw [setReal_nat _ (n - 1 - i) _ (by simp; omega)]
  simp only
  rw [setReal_setImag _ (n - 1 - i) _ _ (by simp; omega)]
  rfl

theorem resize_ok {R E : Type} (A : Arith R) (v : List (Cplx R)) (n : Nat) :
    ∃ f, (resize A v (n : Int) : Except (Fault E) _) = .ok f ∧ f.length = n ∧
      (v = [] → f = List.replicate n ⟨A.zero, A.zero⟩) := by
  refine ⟨_, by simp [resize]; rfl, ?_, ?_⟩
  · simp; omega
  · intro h; subst h; simp

theorem halfPlusOne_nat (n : Nat) : (halfPlusOne (n : Int)).toNat = n / 2 + 1 := by
  unfold halfPlusOne
  rw [Int.tdiv_eq_ediv (by omega) (by omega)]
  omega

theorem stochastic_loop {R E : Type} (A : Arith R) (phase : Nat → R) (n : Nat)
    (f0 : List (Cplx R)) (h0 : f0.length = n) (c : Nat) (hc : c ≤ n) :
    ∃ f, (loop (stochasticBody A phase (n : Int)) c 0 f0 : Except (Fault E) _) = .ok f ∧
      f.length = n ∧
      ∀ k, k < n → f[k]? = match lastWriter n c k with
        | some j => some (binValue A phase j)
        | none => f0[k]? := by
  have h := loop_inv (stochasticBody A phase (n : Int) : Nat → _ → Except (Fault E) _)
    (fun c f => f.length = n ∧ ∀ k, k < n → f[k]? = match lastWriter n c k with
        | some j => some (binValue A phase j)
        | none => f0[k]?) c 0 f0 ⟨h0, ?_⟩ ?_
  · simpa using h
  · intro k hk
    simp [lastWriter]
  · intro j t _ hj ⟨hlen, hbins⟩
    refine ⟨_, stochasticBody_ok A phase n j t hlen (by omega), by simpa using hlen, ?_⟩
    intro k hk
    rw [List.getElem?_set, List.getElem?_set, hbins k hk]
    simp only [List.length_set, hlen]
    unfold lastWriter
    by_cases h1 : n - 1 - j = k
    · have h2 : n - 1 - k = j := by omega
      simp only [h1, h2]
      split_ifs <;> first | rfl | omega
    · by_cases h3 : j = k
      · subst h3
        simp only [h1, if_false, if_true]
        split_ifs <;> first | rfl | omega
      · have h4 : ¬ n - 1 - k = j := by omega
        simp only [h1, h3, if_false]
        split_ifs <;> first | rfl | omega

theorem lastWriter_final (n k : Nat) (hk : k < n) :
    lastWriter n (n / 2 + 1) k = some (source n k) := by
  unfold lastWriter source
  split_ifs <;> first | rfl | omega

theorem stochasticModelSynth_final {R E : Type} (A : Arith R) (phase : Nat → R)
    (stocEnv : List R) (H : Int) (n : Nat) (hn : 1 ≤ n) (fftStoc : List (Cplx R)) :
    ∃ f, (stochasticModelSynth A phase stocEnv H (n : Int) fftStoc : Except (Fault E) _) = .ok f ∧
      f.length = n ∧ ∀ k, k < n → f[k]? = some (binValue A phase (source n k)) := by
  obtain ⟨f0, hf0, hlen0, _⟩ := resize_ok (E := E) A fftStoc n
  obtain ⟨f, hf, hlen, hbins⟩ :=
    stochastic_loop (E := E) A phase n f0 hlen0 (n / 2 + 1) (by omega)
  refine ⟨f, ?_, hlen, ?_⟩
  · simp only [stochasticModelSynth, hf0, halfPlusOne_nat, hf]
  · intro k hk
    rw [hbins k hk, lastWriter_final n k hk]

theorem mixBody_ok {R E : Type} (A : Arith R) (fftStoc outfft : List (Cplx R)) (i : Nat)
    (h1 : i < outfft.length) (h2 : i < fftStoc.length) :
    (mixBody A fftStoc i outfft : Except (Fault E) _)
      = .ok (outfft.set i ⟨A.add outfft[i].re fftStoc[i].re, A.add outfft[i].im fftStoc[i].im⟩) := by
  unfold mixBody
  rw [readBin_nat outfft i h1, readBin_nat fftStoc i h2]
  simp only
  rw [setReal_nat outfft i _ h1]
  simp only
  rw [readBin_nat _ i (by simpa using h1)]
  simp only
  rw [setImag_nat _ i _ (by simpa using h1)]
  simp

theorem mix_loop {R E : Type} (A : Arith R) (fftStoc s : List (Cplx R))
    (hlen : s.length ≤ fftStoc.length) :
    ∃ out, (loop (mixBody A fftStoc) s.length 0 s : Except (Fault E) _) = .ok out ∧
      out.length = s.length ∧
      ∀ (k : Nat) (a b : Cplx R), s[k]? = some a → fftStoc[k]? = some b →
        out[k]? = some (Cplx.mk (A.add a.re b.re) (A.add a.im b.im)) := by
  have h := loop_inv (mixBody A fftStoc : Nat → _ → Except (Fault E) _)
    (fun (c : Nat) (out : List (Cplx R)) => out.length = s.length ∧
      ∀ (k : Nat) (a b : Cplx R), s[k]? = some a → fftStoc[k]? = some b →
        out[k]? = if k < c then some (Cplx.mk (A.add a.re b.re) (A.add a.im b.im)) else some a)
    s.length 0 s ⟨rfl, ?_⟩ ?_
  · obtain ⟨out, hout, hl, hb⟩ := h
    refine ⟨out, hout, hl, ?_⟩
    intro k a b ha hb'
    have hk : k < s.length := by
      rcases Nat.lt_or_ge k s.length with h | h
      · exact h
      · rw [List.getElem?_eq_none h] at ha; cases ha
    rw [hb k a b ha hb']
    simp [hk]
  · intro k a b ha _
    simp [ha]
  · intro j t _ hj ⟨hl, hb⟩
    have hjs : j < s.length := by omega
    have hjt : j < t.length := by omega
    have hjf : j < fftStoc.length := by omega
    refine ⟨_, mixBody_ok A fftStoc t j hjt hjf, by simpa using hl, ?_⟩
    intro k a b ha hb'
    rw [List.getElem?_set]
    by_cases hkj : j = k
    · subst hkj
      have h1 := hb j a b ha hb'
      simp only [Nat.lt_irrefl, if_false] at h1
      rw [List.getElem?_eq_getElem hjt] at h1
      rw [List.getElem?_eq_getElem hjf] at hb'
      cases h1; cases hb'
      simp [hjt]
    · have h1 := hb k a b ha hb'
      simp only [hkj, if_false, h1]
      split_ifs <;> first | rfl | omega

theorem initializeBody_ok {R E : Type} (A : Arith R) (f : List (Cplx R)) (i : Nat)
    (h : i < f.length) :
    (initializeBody A i f : Except (Fault E) _) = .ok (f.set i ⟨A.zero, A.zero⟩) := by
  unfold initializeBody
  rw [setReal_nat f i _ h]
  simp only
  rw [setReal_setImag f i _ _ h]

theorem initializeFFT_ok {R E : Type} (A : Arith R) (fft : List (Cplx R)) (n : Nat) :
    (initializeFFT A fft (n : Int) : Except (Fault E) _)
      = .ok (List.replicate n ⟨A.zero, A.zero⟩) := by
  obtain ⟨f0, hf0, hlen0, _⟩ := resize_ok (E := E) A fft n
  have h := loop_inv (initializeBody A : Nat → _ → Except (Fault E) _)
    (fun (c : Nat) (f : List (Cplx R)) => f.length = n ∧
      ∀ k : Nat, k < c → f[k]? = some (Cplx.mk A.zero A.zero))
    n 0 f0 ⟨hlen0, fun k hk => absurd hk (Nat.not_lt_zero k)⟩ ?_
  · obtain ⟨f, hf, hlen, hb⟩ := h
    have : f = List.replicate n ⟨A.zero, A.zero⟩ := by
      apply List.ext_getElem?
      intro k
      by_cases hk : k < n
      · rw [hb k (by omega)]; simp [hk]
      · rw [List.getElem?_eq_none (by omega), List.getElem?_eq_none (by simp; omega)]
    subst this
    simp only [initializeFFT, hf0, Int.toNat_ofNat, hf]
  · intro j t _ hj ⟨hl, hb⟩
    refine ⟨_, initializeBody_ok A t j (by omega), by simpa using hl, ?_⟩
    intro k hk
    rw [List.getElem?_set]
    by_cases hjk : j = k
    · subst hjk; simp; omega
    · simp only [hjk, if_false]; exact hb k (by omega)

theorem outSize_nonneg (fftSize : Int) (h : 0 ≤ fftSize) :
    outSize fftSize = (((fftSize / 2 + 1).toNat : Nat) : Int) ∧ 1 ≤ (fftSize / 2 + 1).toNat := by
  unfold outSize
  rw [Int.fdiv_eq_ediv _ (by omega)]
  omega

theorem compute_ok {R E : Type} (A : Arith R) (sine : SineModel R E) (phase : Nat → R)
    (fftSize hopSize : Int) (magnitudes frequencies phases stocenv : List R)
    (outfft s : List (Cplx R)) (hfft : 0 ≤ fftSize)
    (hs : sine magnitudes frequencies phases
      (List.replicate (fftSize / 2 + 1).toNat ⟨A.zero, A.zero⟩) = (s, none))
    (hlen : s.length = (fftSize / 2 + 1).toNat) :
    ∃ st out, (residualFrame A phase fftSize hopSize stocenv : Except (Fault E) _) = .ok st ∧
      st.length = (fftSize / 2 + 1).toNat ∧
      (∀ k, k < (fftSize / 2 + 1).toNat →
        st[k]? = some (binValue A phase (source (fftSize / 2 + 1).toNat k))) ∧
      compute A sine phase fftSize hopSize magnitudes frequencies phases stocenv outfft
        = ⟨out, none⟩ ∧
      out.length = s.length ∧
      ∀ (k : Nat) (a b : Cplx R), s[k]? = some a → st[k]? = some b →
        out[k]? = some (Cplx.mk (A.add a.re b.re) (A.add a.im b.im)) := by
  obtain ⟨ho, hn⟩ := outSize_nonneg fftSize hfft
  obtain ⟨st, hst, hstlen, hstb⟩ :=
    stochasticModelSynth_final (E := E) A phase stocenv hopSize _ hn []
  obtain ⟨out, hout, houtlen, houtb⟩ := mix_loop (E := E) A st s (by omega)
  refine ⟨st, out, ?_, hstlen, hstb, ?_, houtlen, houtb⟩
  · unfold residualFrame; rw [ho]; exact hst
  · have hr : (residualFrame A phase fftSize hopSize stocenv : Except (Fault E) _) = .ok st := by
      unfold residualFrame; rw [ho]; exact hst
    unfold compute
    rw [ho, initializeFFT_ok]
    simp only [hs, hr, hout]

theorem source_mirror (n k : Nat) (hk : k < n) : source n (n - 1 - k) = source n k := by
  unfold source
  split_ifs <;> omega

theorem bin?_final {R : Type} (A : Arith R) (phase : Nat → R) (n : Nat) (f : List (Cplx R))
    (hb : ∀ k, k < n → f[k]? = some (binValue A phase (source n k)))
    (i : Int) (h0 : 0 ≤ i) (h1 : i < n) :
    bin? f i = some (binValue A phase (source n i.toNat)) := by
  obtain ⟨k, rfl⟩ := Int.eq_ofNat_of_zero_le h0
  rw [bin?_natCast, hb k (by omega)]
  rfl

theorem loop_fault {σ ε : Type} (body : Nat → σ → Except ε σ) (P : Nat → σ → Prop) (e : ε) :
    ∀ (a count i : Nat) (s : σ), P i s →
      (∀ j t, i ≤ j → j < i + a → P j t → ∃ t', body j t = .ok t' ∧ P (j + 1) t') →
      (∀ t, P (i + a) t → body (i + a) t = .error e) → a < count →
      loop body count i s = .error e := by
  intro a
  induction a with
  | zero =>
    intro count i s h _ hfail hc
    obtain ⟨c, rfl⟩ : ∃ c, count = c + 1 := ⟨count - 1, by omega⟩
    have := hfail s (by simpa using h)
    simp only [Nat.add_zero] at this
    simp [loop, this]
  | succ a ih =>
    intro count i s h hstep hfail hc
    obtain ⟨c, rfl⟩ : ∃ c, count = c + 1 := ⟨count - 1, by omega⟩
    obtain ⟨t, ht, hP⟩ := hstep i s (Nat.le_refl i) (by omega) h
    have hrest := ih c (i + 1) t hP
      (fun j u h1 h2 hu => hstep j u (by omega) (by omega) hu)
      (fun u hu => by
        have h3 : i + 1 + a = i + (a + 1) := by omega
        rw [h3] at hu ⊢
        exact hfail u hu)
      (by omega)
    simp [loop, ht, hrest]

theorem resampleBody_ok {R E : Type} (fftin fftout : List (Cplx R)) (n i : Nat)
    (hi : i < fftin.length) (hlen : fftout.length = n) (hin : i < n) :
    (resampleBody fftin (n : Int) i fftout : Except (Fault E) _)
      = .ok ((fftout.set i fftin[i]).set (n - 1 - i) fftin[i]) := by
  have hj : ((n : Int) - (i : Int) - 1) = ((n - 1 - i : Nat) : Int) := by omega
  unfold resampleBody
  simp only [hj]
  rw [readBin_nat fftin i hi]
  simp only
  rw [setReal_nat fftout i _ (by omega)]
  simp only
  rw [setReal_setImag fftout i _ _ (by omega)]
  simp only
  rw [setReal_nat _ (n - 1 - i) _ (by simp; omega)]
  simp only
  rw [setReal_setImag _ (n - 1 - i) _ _ (by simp; omega)]

theorem resampleBody_fault {R E : Type} (fftin fftout : List (Cplx R)) (sizeOut : Int)
    (i : Nat) (h : fftout.length ≤ i) :
    (resampleBody fftin sizeOut i fftout : Except (Fault E) _) = .error Fault.outOfRange := by
  unfold resampleBody
  cases hr : (readBin fftin (i : Int) : Except (Fault E) _) with
  | error e =>
    simp only
    unfold readBin at hr
    split at hr
    · cases hr
    · cases hr; rfl
  | ok a =>
    simp only
    have : (setReal fftout (i : Int) a.re : Except (Fault E) _) = .error Fault.outOfRange := by
      simp [setReal, bin?_natCast, List.getElem?_eq_none h]
    rw [this]

theorem real_amplitude_gt : (1.1 : ℝ) < (10 : ℝ) ^ ((1 : ℝ) / 20) := by
  by_contra h
  push_neg at h
  have h0 : (0 : ℝ) ≤ (10 : ℝ) ^ ((1 : ℝ) / 20) := Real.rpow_nonneg (by norm_num) _
  have h1 : ((10 : ℝ) ^ ((1 : ℝ) / 20)) ^ (20 : ℕ) ≤ (1.1 : ℝ) ^ (20 : ℕ) :=
    pow_le_pow_left₀ h0 h 20
  have h2 : ((10 : ℝ) ^ ((1 : ℝ) / 20)) ^ (20 : ℕ) = 10 := by
    rw [← Real.rpow_natCast, ← Real.rpow_mul (by norm_num : (0 : ℝ) ≤ 10)]
    norm_num
  rw [h2] at h1
  norm_num at h1

theorem real_bin_magnitude (a c s : ℝ) (h : c ^ 2 + s ^ 2 = 1) :
    (0 + a * c) ^ 2 + (0 + a * s) ^ 2 = a ^ 2 := by
  linear_combination a ^ 2 * h

/-! ### The claims -/

/-- C1: for every fftSize > 0 and every track and envelope input, when the sinusoidal
collaborator returns (without error) a spectrum of the length it was handed, `compute`
ends without fault and its output spectrum has exactly floor(fftSize/2)+1 bins. -/
theorem compute_output_length {R E : Type} (A : Arith R) (sine : SineModel R E)
    (phase : Nat → R) (fftSize hopSize : Int) (magnitudes frequencies phases stocenv : List R)
    (outfft : List (Cplx R)) (hfft : 0 < fftSize)
    (hsine : ∀ buf, (sine magnitudes frequencies phases buf).2 = none ∧
      (sine magnitudes frequencies phases buf).1.length = buf.length) :
    (compute A sine phase fftSize hopSize magnitudes frequencies phases stocenv outfft).error
        = none ∧
      (((compute A sine phase fftSize hopSize magnitudes frequencies phases stocenv
        outfft).outfft.length : Nat) : Int) = fftSize / 2 + 1 := by
  obtain ⟨h1, h2⟩ := hsine (List.replicate (fftSize / 2 + 1).toNat ⟨A.zero, A.zero⟩)
  obtain ⟨st, out, _, _, _, hc, hl, _⟩ :=
    compute_ok A sine phase fftSize hopSize magnitudes frequencies phases stocenv outfft
      (sine magnitudes frequencies phases
        (List.replicate (fftSize / 2 + 1).toNat ⟨A.zero, A.zero⟩)).1
      (by omega) (by rw [← h1]) (by rw [h2]; simp)
  rw [hc]
  refine ⟨rfl, ?_⟩
  simp only [hl, h2, List.length_replicate]
  omega

/-- Witness of C1: fftSize = 6, no track, a previous output of one bin. -/
theorem compute_output_length_witness :
    (0 : Int) < 6 ∧
    (compute symArith checkedSilence Sym.atom 6 2 [] [] [] [] [⟨Sym.one, Sym.one⟩]).error
        = none ∧
      (((compute symArith checkedSilence Sym.atom 6 2 [] [] [] []
        [⟨Sym.one, Sym.one⟩]).outfft.length : Nat) : Int) = 6 / 2 + 1 :=
  ⟨by decide,
    compute_output_length symArith checkedSilence Sym.atom 6 2 [] [] [] []
      [⟨Sym.one, Sym.one⟩] (by decide) (fun _ => ⟨rfl, rfl⟩)⟩

/-- C2: for fftSize > 0 and a collaborator that returns a spectrum of the length it was
handed, `compute` ends without fault, its output has the length of the sinusoidal spectrum,
and every bin of the output is the sum, real part with real part and imaginary part with
imaginary part, of the bin of the sinusoidal spectrum and the bin of the stochastic frame. -/
theorem compute_output_is_sum {R E : Type} (A : Arith R) (sine : SineModel R E)
    (phase : Nat → R) (fftSize hopSize : Int) (magnitudes frequencies phases stocenv : List R)
    (outfft : List (Cplx R)) (hfft : 0 < fftSize)
    (hsine : ∀ buf, (sine magnitudes frequencies phases buf).2 = none ∧
      (sine magnitudes frequencies phases buf).1.length = buf.length) :
    ∃ fftStoc : List (Cplx R),
      (stochasticModelSynth A phase stocenv hopSize (outSize fftSize) []
        : Except (Fault E) _) = .ok fftStoc ∧
      (compute A sine phase fftSize hopSize magnitudes frequencies phases stocenv outfft).error
        = none ∧
      (compute A sine phase fftSize hopSize magnitudes frequencies phases stocenv
        outfft).outfft.length
        = (sine magnitudes frequencies phases
            (List.replicate (outSize fftSize).toNat ⟨A.zero, A.zero⟩)).1.length ∧
      ∀ i : Nat, i < (compute A sine phase fftSize hopSize magnitudes frequencies phases
          stocenv outfft).outfft.length →
        ∃ a b : Cplx R,
          (sine magnitudes frequencies phases
            (List.replicate (outSize fftSize).toNat ⟨A.zero, A.zero⟩)).1[i]? = some a ∧
          fftStoc[i]? = some b ∧
          (compute A sine phase fftSize hopSize magnitudes frequencies phases stocenv
            outfft).outfft[i]? = some ⟨A.add a.re b.re, A.add a.im b.im⟩ := by
  obtain ⟨ho, _⟩ := outSize_nonneg fftSize (by omega)
  have hn : (outSize fftSize).toNat = (fftSize / 2 + 1).toNat := by
    rw [ho]; exact Int.toNat_ofNat _
  rw [hn]
  obtain ⟨h1, h2⟩ := hsine (List.replicate (fftSize / 2 + 1).toNat ⟨A.zero, A.zero⟩)
  obtain ⟨st, out, hst, hstl, _, hc, hl, hb⟩ :=
    compute_ok A sine phase fftSize hopSize magnitudes frequencies phases stocenv outfft
      (sine magnitudes frequencies phases
        (List.replicate (fftSize / 2 + 1).toNat ⟨A.zero, A.zero⟩)).1
      (by omega) (by rw [← h1]) (by rw [h2]; simp)
  refine ⟨st, hst, ?_, ?_, ?_⟩
  · rw [hc]
  · rw [hc]; exact hl
  · rw [hc]
    intro i hi
    simp only [hl, h2, List.length_replicate] at hi
    have hi1 : i < (sine magnitudes frequencies phases
        (List.replicate (fftSize / 2 + 1).toNat ⟨A.zero, A.zero⟩)).1.length := by
      rw [h2]; simpa using hi
    have hi2 : i < st.length := by omega
    exact ⟨_, _, List.getElem?_eq_getElem hi1, List.getElem?_eq_getElem hi2,
      hb i _ _ (List.getElem?_eq_getElem hi1) (List.getElem?_eq_getElem hi2)⟩

/-- Witness of C2: fftSize = 6, no track, an empty previous output. -/
theorem compute_output_is_sum_witness :
    (0 : Int) < 6 ∧
    ∃ fftStoc : List (Cplx Sym),
      (stochasticModelSynth symArith Sym.atom [] 2 (outSize 6) []
        : Except (Fault Nat) _) = .ok fftStoc ∧
      (compute symArith checkedSilence Sym.atom 6 2 [] [] [] [] []).error = none ∧
      (compute symArith checkedSilence Sym.atom 6 2 [] [] [] [] []).outfft.length
        = (checkedSilence ([] : List Sym) [] []
            (List.replicate (outSize 6).toNat ⟨symArith.zero, symArith.zero⟩)).1.length ∧
      ∀ i : Nat, i < (compute symArith checkedSilence Sym.atom 6 2 [] [] [] [] []).outfft.length →
        ∃ a b : Cplx Sym,
          (checkedSilence ([] : List Sym) [] []
            (List.replicate (outSize 6).toNat ⟨symArith.zero, symArith.zero⟩)).1[i]? = some a ∧
          fftStoc[i]? = some b ∧
          (compute symArith checkedSilence Sym.atom 6 2 [] [] [] [] []).outfft[i]?
            = some ⟨symArith.add a.re b.re, symArith.add a.im b.im⟩ :=
  ⟨by decide,
    compute_output_is_sum symArith checkedSilence Sym.atom 6 2 [] [] [] [] []
      (by decide) (fun _ => ⟨rfl, rfl⟩)⟩

/-- C8: for every N ≥ 1, every phase sequence, every envelope and hop size, and whatever
`fftStoc` held on entry, `stochasticModelSynth` returns a frame of N bins in which, for
every i in [0, floor(N/2)+1), bin i exists and the mirror bin N-i-1 holds the same
complex value (same real part, same imaginary part) as bin i. -/
theorem mirror_bin_same_value {R E : Type} (A : Arith R) (phase : Nat → R)
    (stocEnv : List R) (H N : Int) (fftStoc : List (Cplx R)) (hN : 1 ≤ N) :
    ∃ f : List (Cplx R),
      (stochasticModelSynth A phase stocEnv H N fftStoc : Except (Fault E) _) = .ok f ∧
      ((f.length : Nat) : Int) = N ∧
      ∀ i : Int, 0 ≤ i → i < N / 2 + 1 →
        ∃ z : Cplx R, bin? f i = some z ∧ bin? f (N - i - 1) = some z := by
  obtain ⟨n, rfl⟩ := Int.eq_ofNat_of_zero_le (by omega : 0 ≤ N)
  obtain ⟨f, hf, hlen, hb⟩ :=
    stochasticModelSynth_final (E := E) A phase stocEnv H n (by omega) fftStoc
  refine ⟨f, hf, by omega, ?_⟩
  intro i h0 h1
  refine ⟨_, bin?_final A phase n f hb i h0 (by omega), ?_⟩
  rw [bin?_final A phase n f hb _ (by omega) (by omega)]
  have : ((n : Int) - i - 1).toNat = n - 1 - i.toNat := by omega
  rw [this, source_mirror n i.toNat (by omega)]

/-- Witness of C8: N = 4 with the symbolic phases. -/
theorem mirror_bin_same_value_witness :
    (1 : Int) ≤ 4 ∧
    ∃ f : List (Cplx Sym),
      (stochasticModelSynth symArith Sym.atom [] 2 4 [] : Except (Fault Nat) _) = .ok f ∧
      ((f.length : Nat) : Int) = 4 ∧
      ∀ i : Int, 0 ≤ i → i < 4 / 2 + 1 →
        ∃ z : Cplx Sym, bin? f i = some z ∧ bin? f (4 - i - 1) = some z :=
  ⟨by decide, mirror_bin_same_value symArith Sym.atom [] 2 4 [] (by decide)⟩

/-- C10: for every N ≥ 1 the loop bound of `stochasticModelSynth` is floor(N/2)+1, every
index it writes (i and N-i-1 for 0 ≤ i < floor(N/2)+1) lies in [0, N), and the call
returns a frame of N bins without an out-of-range access; for every fftSize ≥ 0 `compute`
passes N = floor(fftSize/2)+1 ≥ 1, and with a collaborator that returns a spectrum of the
length it was handed the frame has the length of the output spectrum, every read
`fftStoc[i]` of the mixing loop is in range, and `compute` ends without fault. -/
theorem accesses_in_range {R E : Type} (A : Arith R) (sine : SineModel R E)
    (phase : Nat → R) (stocEnv : List R) (H N : Int) (fftStoc : List (Cplx R))
    (fftSize hopSize : Int) (magnitudes frequencies phases stocenv : List R)
    (outfft : List (Cplx R)) (hN : 1 ≤ N) (hfft : 0 ≤ fftSize)
    (hsine : ∀ buf, (sine magnitudes frequencies phases buf).2 = none ∧
      (sine magnitudes frequencies phases buf).1.length = buf.length) :
    halfPlusOne N = N / 2 + 1 ∧
    (∀ i : Int, 0 ≤ i → i < halfPlusOne N →
      (0 ≤ i ∧ i < N) ∧ (0 ≤ N - i - 1 ∧ N - i - 1 < N)) ∧
    (∃ f : List (Cplx R),
      (stochasticModelSynth A phase stocEnv H N fftStoc : Except (Fault E) _) = .ok f ∧
      ((f.length : Nat) : Int) = N) ∧
    outSize fftSize = fftSize / 2 + 1 ∧ 1 ≤ outSize fftSize ∧
    ∃ st : List (Cplx R),
      (stochasticModelSynth A phase stocenv hopSize (outSize fftSize) []
        : Except (Fault E) _) = .ok st ∧
      st.length = (compute A sine phase fftSize hopSize magnitudes frequencies phases
        stocenv outfft).outfft.length ∧
      (∀ i : Nat, i < (compute A sine phase fftSize hopSize magnitudes frequencies phases
          stocenv outfft).outfft.length →
        ∃ b : Cplx R, (readBin st (i : Int) : Except (Fault E) _) = .ok b) ∧
      (compute A sine phase fftSize hopSize magnitudes frequencies phases stocenv
        outfft).error = none := by
  have hh : halfPlusOne N = N / 2 + 1 := by
    unfold halfPlusOne
    rw [Int.tdiv_eq_ediv (by omega) (by omega)]
    omega
  refine ⟨hh, ?_, ?_, ?_⟩
  · intro i h0 h1
    rw [hh] at h1
    omega
  · obtain ⟨n, rfl⟩ := Int.eq_ofNat_of_zero_le (by omega : 0 ≤ N)
    obtain ⟨f, hf, hlen, _⟩ :=
      stochasticModelSynth_final (E := E) A phase stocEnv H n (by omega) fftStoc
    exact ⟨f, hf, by omega⟩
  · obtain ⟨ho, hn⟩ := outSize_nonneg fftSize hfft
    obtain ⟨h1, h2⟩ := hsine (List.replicate (fftSize / 2 + 1).toNat ⟨A.zero, A.zero⟩)
    obtain ⟨st, out, hst, hstl, _, hc, hl, _⟩ :=
      compute_ok A sine phase fftSize hopSize magnitudes frequencies phases stocenv outfft
        (sine magnitudes frequencies phases
          (List.replicate (fftSize / 2 + 1).toNat ⟨A.zero, A.zero⟩)).1
        hfft (by rw [← h1]) (by rw [h2]; simp)
    refine ⟨by omega, by omega, st, hst, ?_, ?_, ?_⟩
    · rw [hc]; simp only [hl, h2, List.length_replicate, hstl]
    · rw [hc]
      intro i hi
      simp only [hl, h2, List.length_replicate] at hi
      exact ⟨_, readBin_nat st i (by omega)⟩
    · rw [hc]

/-- Witness of C10: N = 5 and fftSize = 0, with the symbolic phases. -/
theorem accesses_in_range_witness :
    (1 : Int) ≤ 5 ∧ (0 : Int) ≤ 0 ∧
    (∃ f : List (Cplx Sym),
      (stochasticModelSynth symArith Sym.atom [] 2 5 [] : Except (Fault Nat) _) = .ok f ∧
      ((f.length : Nat) : Int) = 5) ∧
    (compute symArith checkedSilence Sym.atom 0 2 [] [] [] [] []).error = none :=
  have h := accesses_in_range symArith checkedSilence Sym.atom [] 2 5 [] 0 2 [] [] [] [] []
    (by decide) (by decide) (fun _ => ⟨rfl, rfl⟩)
  ⟨by decide, by decide, h.2.2.1, h.2.2.2.2.2.choose_spec.2.2.2⟩

/-- C4, counterexample: with hop size H = 0 and N = 4 the call does not fail: it returns
a frame of 4 bins. -/
theorem invalid_hop_size_not_rejected :
    (0 : Int) ≤ 0 ∧
    ∃ f : List (Cplx Sym),
      (stochasticModelSynth symArith Sym.atom [] 0 4 [] : Except (Fault Nat) _) = .ok f ∧
      f.length = 4 :=
  ⟨by decide, _, rfl, rfl⟩

/-- C4, amended: `stochasticModelSynth` validates no size: the hop size H is never
inspected (the result is the same for every H), and for every N ≥ 1 and every H, also
H ≤ 0, the call returns a frame of N bins. -/
theorem stochasticModelSynth_returns_frame {R E : Type} (A : Arith R) (phase : Nat → R)
    (stocEnv : List R) (H N : Int) (fftStoc : List (Cplx R)) (hN : 1 ≤ N) :
    (∀ H1 : Int, (stochasticModelSynth A phase stocEnv H1 N fftStoc : Except (Fault E) _)
      = stochasticModelSynth A phase stocEnv H N fftStoc) ∧
    ∃ f : List (Cplx R),
      (stochasticModelSynth A phase stocEnv H N fftStoc : Except (Fault E) _) = .ok f ∧
      ((f.length : Nat) : Int) = N := by
  refine ⟨fun _ => rfl, ?_⟩
  obtain ⟨n, rfl⟩ := Int.eq_ofNat_of_zero_le (by omega : 0 ≤ N)
  obtain ⟨f, hf, hlen, _⟩ :=
    stochasticModelSynth_final (E := E) A phase stocEnv H n (by omega) fftStoc
  exact ⟨f, hf, by omega⟩

/-- Witness of C4 amended: N = 3 and H = -1. -/
theorem stochasticModelSynth_returns_frame_witness :
    (1 : Int) ≤ 3 ∧
    ∃ f : List (Cplx Sym),
      (stochasticModelSynth symArith Sym.atom [] (-1) 3 [] : Except (Fault Nat) _) = .ok f ∧
      ((f.length : Nat) : Int) = 3 :=
  ⟨by decide,
    (stochasticModelSynth_returns_frame symArith Sym.atom [] (-1) 3 [] (by decide)).2⟩

/-- C5, counterexample: fftSize = 6, one magnitude and no frequency, a previous output of
one bin. The collaborator rejects the tracks without touching its buffer, `compute` ends
with that error, and the output buffer is no longer what it was: it holds four zero bins. -/
theorem output_buffer_modified_on_failure :
    (compute symArith checkedSilence Sym.atom 6 2 [Sym.one] [] [] []
        [⟨Sym.one, Sym.one⟩]).error = some (Fault.collaborator 0) ∧
    (compute symArith checkedSilence Sym.atom 6 2 [Sym.one] [] [] []
        [⟨Sym.one, Sym.one⟩]).outfft ≠ [⟨Sym.one, Sym.one⟩] ∧
    (compute symArith checkedSilence Sym.atom 6 2 [Sym.one] [] [] []
        [⟨Sym.one, Sym.one⟩]).outfft = List.replicate 4 ⟨Sym.zero, Sym.zero⟩ := by
  decide

/-- C5, amended: `compute` checks no length itself; for fftSize > 0 it first resizes the
output buffer to floor(fftSize/2)+1 bins and zeroes them, then calls the collaborator.
When the collaborator raises an error `e` on that buffer, `compute` ends with the error
`e` and the output buffer holds what the collaborator left in it; so when the collaborator
leaves its buffer untouched, the output buffer holds floor(fftSize/2)+1 zero bins,
whatever it held before the call. -/
theorem compute_collaborator_failure {R E : Type} (A : Arith R) (sine : SineModel R E)
    (phase : Nat → R) (fftSize hopSize : Int) (magnitudes frequencies phases stocenv : List R)
    (outfft left : List (Cplx R)) (e : E) (hfft : 0 < fftSize)
    (hsine : sine magnitudes frequencies phases
      (List.replicate (fftSize / 2 + 1).toNat ⟨A.zero, A.zero⟩) = (left, some e)) :
    compute A sine phase fftSize hopSize magnitudes frequencies phases stocenv outfft
      = ⟨left, some (Fault.collaborator e)⟩ ∧
    (left = List.replicate (fftSize / 2 + 1).toNat ⟨A.zero, A.zero⟩ →
      (compute A sine phase fftSize hopSize magnitudes frequencies phases stocenv
        outfft).outfft = List.replicate (fftSize / 2 + 1).toNat ⟨A.zero, A.zero⟩) := by
  obtain ⟨ho, _⟩ := outSize_nonneg fftSize (by omega)
  have hc : compute A sine phase fftSize hopSize magnitudes frequencies phases stocenv outfft
      = ⟨left, some (Fault.collaborator e)⟩ := by
    unfold compute
    rw [ho, initializeFFT_ok]
    simp only [hsine]
  refine ⟨hc, ?_⟩
  intro h
  rw [hc]
  exact h

/-- Witness of C5 amended: fftSize = 6, one magnitude and no frequency. -/
theorem compute_collaborator_failure_witness :
    (0 : Int) < 6 ∧
    compute symArith checkedSilence Sym.atom 6 2 [Sym.one] [] [] [] [⟨Sym.one, Sym.one⟩]
      = ⟨List.replicate 4 ⟨Sym.zero, Sym.zero⟩, some (Fault.collaborator 0)⟩ :=
  ⟨by decide,
    (compute_collaborator_failure symArith checkedSilence Sym.atom 6 2 [Sym.one] [] [] []
      [⟨Sym.one, Sym.one⟩] (List.replicate 4 ⟨Sym.zero, Sym.zero⟩) 0 (by decide) rfl).1⟩

/-- C6, counterexample: with fftSize = 6 the residual frame `compute` obtains has 4 bins,
not 6. -/
theorem residual_frame_not_full_size :
    (∃ st : List (Cplx Sym),
      (residualFrame symArith Sym.atom 6 2 [] : Except (Fault Nat) _) = .ok st ∧
      st.length = 4) ∧
    ¬ ∃ st : List (Cplx Sym),
      (residualFrame symArith Sym.atom 6 2 [] : Except (Fault Nat) _) = .ok st ∧
      ((st.length : Nat) : Int) = 6 := by
  refine ⟨⟨_, rfl, rfl⟩, ?_⟩
  rintro ⟨st, hst, hlen⟩
  have h : (residualFrame symArith Sym.atom 6 2 [] : Except (Fault Nat) _)
      = .ok [binValue symArith Sym.atom 0, binValue symArith Sym.atom 2,
          binValue symArith Sym.atom 2, binValue symArith Sym.atom 0] := rfl
  rw [h] at hst
  cases hst
  simp at hlen

/-- C6, amended: for every fftSize > 0, `compute` invokes the stochastic synthesizer with
(stocEnv, hopSize, floor(fftSize/2)+1); the residual frame it obtains has
floor(fftSize/2)+1 bins, the length of the output spectrum, and every one of its bins is
added to the bin of the sinusoidal spectrum at the same index. -/
theorem residual_frame_half_size {R E : Type} (A : Arith R) (sine : SineModel R E)
    (phase : Nat → R) (fftSize hopSize : Int) (magnitudes frequencies phases stocenv : List R)
    (outfft : List (Cplx R)) (hfft : 0 < fftSize)
    (hsine : ∀ buf, (sine magnitudes frequencies phases buf).2 = none ∧
      (sine magnitudes frequencies phases buf).1.length = buf.length) :
    (residualFrame A phase fftSize hopSize stocenv : Except (Fault E) _)
      = stochasticModelSynth A phase stocenv hopSize (fftSize / 2 + 1) [] ∧
    ∃ st : List (Cplx R),
      (residualFrame A phase fftSize hopSize stocenv : Except (Fault E) _) = .ok st ∧
      ((st.length : Nat) : Int) = fftSize / 2 + 1 ∧
      st.length = (compute A sine phase fftSize hopSize magnitudes frequencies phases
        stocenv outfft).outfft.length ∧
      ∀ i : Nat, i < st.length →
        ∃ a b : Cplx R,
          (sine magnitudes frequencies phases
            (List.replicate (fftSize / 2 + 1).toNat ⟨A.zero, A.zero⟩)).1[i]? = some a ∧
          st[i]? = some b ∧
          (compute A sine phase fftSize hopSize magnitudes frequencies phases stocenv
            outfft).outfft[i]? = some ⟨A.add a.re b.re, A.add a.im b.im⟩ := by
  obtain ⟨ho, _⟩ := outSize_nonneg fftSize (by omega)
  obtain ⟨h1, h2⟩ := hsine (List.replicate (fftSize / 2 + 1).toNat ⟨A.zero, A.zero⟩)
  obtain ⟨st, out, hst, hstl, _, hc, hl, hb⟩ :=
    compute_ok A sine phase fftSize hopSize magnitudes frequencies phases stocenv outfft
      (sine magnitudes frequencies phases
        (List.replicate (fftSize / 2 + 1).toNat ⟨A.zero, A.zero⟩)).1
      (by omega) (by rw [← h1]) (by rw [h2]; simp)
  refine ⟨?_, st, hst, by omega, ?_, ?_⟩
  · unfold residualFrame
    rw [ho]
    congr 1
    omega
  · rw [hc]; simp only [hl, h2, List.length_replicate, hstl]
  · rw [hc]
    intro i hi
    have hi1 : i < (sine magnitudes frequencies phases
        (List.replicate (fftSize / 2 + 1).toNat ⟨A.zero, A.zero⟩)).1.length := by
      rw [h2]; simp only [List.length_replicate]; omega
    exact ⟨_, _, List.getElem?_eq_getElem hi1, List.getElem?_eq_getElem hi,
      hb i _ _ (List.getElem?_eq_getElem hi1) (List.getElem?_eq_getElem hi)⟩

/-- Witness of C6 amended: fftSize = 6. -/
theorem residual_frame_half_size_witness :
    (0 : Int) < 6 ∧
    ∃ st : List (Cplx Sym),
      (residualFrame symArith Sym.atom 6 2 [] : Except (Fault Nat) _) = .ok st ∧
      ((st.length : Nat) : Int) = 6 / 2 + 1 :=
  have h := residual_frame_half_size symArith checkedSilence Sym.atom 6 2 [] [] [] [] []
    (by decide) (fun _ => ⟨rfl, rfl⟩)
  ⟨by decide, h.2.choose, h.2.choose_spec.1, h.2.choose_spec.2.1⟩

/-- C3, the code at the scenario of the claim, with the arithmetic read over the real
numbers: fftSize = 1024 and no track (an all-zero sinusoidal spectrum). For EVERY envelope
`stocEnv` (so also for 512 values of 0 dB), every phase sequence and every bin i < 513 of
the output, the squared magnitude is (10^(1/20))^2, the constant `magdB = 1` of the
source, which exceeds 1.21: the magnitude is not 1 = 10^(0/20) and does not come from the
envelope. -/
theorem stochastic_magnitude_is_constant :
    ∀ (stocEnv : List ℝ) (phase : Nat → ℝ) (hopSize : Int) (prev : List (Cplx ℝ))
      (i : Fin 513),
      ∃ z : Cplx ℝ,
        (compute (E := Nat)
          ⟨0, 1, 10, 20, fun x y => x + y, fun x y => x * y, fun x y => x / y,
            fun x y => x ^ y, Real.cos, Real.sin⟩
          checkedSilence phase 1024 hopSize [] [] [] stocEnv prev).outfft[i.val]? = some z ∧
        z.re ^ 2 + z.im ^ 2 = ((10 : ℝ) ^ ((1 : ℝ) / 20)) ^ 2 ∧
        (1.21 : ℝ) < z.re ^ 2 + z.im ^ 2 := by
  intro stocEnv phase hopSize prev i
  obtain ⟨st, out, _, hstl, hstb, hc, _, hb⟩ :=
    compute_ok (E := Nat)
      ⟨0, 1, 10, 20, fun x y => x + y, fun x y => x * y, fun x y => x / y,
        fun x y => x ^ y, Real.cos, Real.sin⟩
      checkedSilence phase 1024 hopSize [] [] [] stocEnv prev
      (List.replicate ((1024 : Int) / 2 + 1).toNat ⟨0, 0⟩) (by decide) rfl
      (List.length_replicate _ _)
  have h513 : ((1024 : Int) / 2 + 1).toNat = 513 := by decide
  have hi : i.val < ((1024 : Int) / 2 + 1).toNat := by rw [h513]; exact i.isLt
  have hs : (List.replicate ((1024 : Int) / 2 + 1).toNat (Cplx.mk (0 : ℝ) 0))[i.val]?
      = some ⟨0, 0⟩ := by
    rw [List.getElem?_replicate, if_pos hi]
  have hz := hb i.val _ _ hs (hstb i.val hi)
  refine ⟨_, by rw [hc]; exact hz, ?_, ?_⟩
  · exact real_bin_magnitude _ _ _ (Real.cos_sq_add_sin_sq _)
  · have h : (1.21 : ℝ) < ((10 : ℝ) ^ ((1 : ℝ) / 20)) ^ 2 := by
      have ha := real_amplitude_gt
      have h1 : (1.21 : ℝ) = 1.1 ^ 2 := by norm_num
      rw [h1]
      exact pow_lt_pow_left₀ ha (by norm_num) (by norm_num)
    exact lt_of_lt_of_eq h (real_bin_magnitude _ _ _ (Real.cos_sq_add_sin_sq _)).symm

/-- C7, the code at a failing input: an input spectrum of 4 bins resampled to 2 bins.
The loop runs for i = 0, 1, 2 and at i = 2 writes `fftout[2]`, outside the 2-bin
spectrum: the call faults with an out-of-range access. With 3 target bins, still fewer
than 4, all accesses are in range. -/
theorem resample_writes_out_of_range :
    (resample symArith (List.map (fun i => ⟨Sym.atom i, Sym.atom (i + 4)⟩) [0, 1, 2, 3]) 2
      : Except (Fault Nat) _) = .error Fault.outOfRange ∧
    (resample symArith (List.map (fun i => ⟨Sym.atom i, Sym.atom (i + 4)⟩) [0, 1, 2, 3]) 3
      : Except (Fault Nat) _)
      = .ok [⟨Sym.atom 2, Sym.atom 6⟩, ⟨Sym.atom 1, Sym.atom 5⟩, ⟨Sym.atom 2, Sym.atom 6⟩] :=
  ⟨rfl, rfl⟩

/-- C9, the code at a failing input: N = 4, so hN = 3. Iteration 2 writes its value to
bin 2 and to the mirror bin 4-2-1 = 1, over the value iteration 1 wrote there: the
returned frame holds at bin 1 the value built from the phase drawn in iteration 2, which
differs from the value built from the phase of iteration 1. The same happens for every
even N = 2(m+1) at bin m. -/
theorem even_frame_bin_carries_later_draw :
    (stochasticModelSynth symArith Sym.atom [] 256 4 [] : Except (Fault Nat) _)
      = .ok [binValue symArith Sym.atom 0, binValue symArith Sym.atom 2,
          binValue symArith Sym.atom 2, binValue symArith Sym.atom 0] ∧
    binValue symArith Sym.atom 2 ≠ binValue symArith Sym.atom 1 ∧
    ∀ (R E : Type) (A : Arith R) (phase : Nat → R) (stocEnv : List R) (H : Int) (m : Nat)
      (fftStoc : List (Cplx R)),
      ∃ f : List (Cplx R),
        (stochasticModelSynth A phase stocEnv H ((2 * (m + 1) : Nat) : Int) fftStoc
          : Except (Fault E) _) = .ok f ∧
        f[m]? = some (binValue A phase (m + 1)) := by
  refine ⟨rfl, by decide, ?_⟩
  intro R E A phase stocEnv H m fftStoc
  obtain ⟨f, hf, _, hb⟩ :=
    stochasticModelSynth_final (E := E) A phase stocEnv H (2 * (m + 1)) (by omega) fftStoc
  refine ⟨f, hf, ?_⟩
  rw [hb m (by omega)]
  have : source (2 * (m + 1)) m = m + 1 := by
    unfold source
    split_ifs <;> omega
  rw [this]

/-! ### Further facts on the two defective loops -/

/-- The range condition of `resample` in general: for every input spectrum, the call
faults with an out-of-range access whenever 0 ≤ sizeOut ≤ floor(sizeIn/2), and returns a
spectrum of sizeOut bins for every non-empty input spectrum and every
sizeOut ≥ floor(sizeIn/2)+1. -/
theorem resample_range {R E : Type} (A : Arith R) (fftin : List (Cplx R)) (c : Cplx R)
    (d : Nat) :
    (resample A fftin ((fftin.length / 2 - d : Nat) : Int) : Except (Fault E) _)
      = .error Fault.outOfRange ∧
    ∃ fftout : List (Cplx R),
      (resample A (c :: fftin) (((c :: fftin).length / 2 + 1 + d : Nat) : Int)
        : Except (Fault E) _) = .ok fftout ∧
      fftout.length = (c :: fftin).length / 2 + 1 + d := by
  constructor
  · unfold resample
    rw [initializeFFT_ok]
    simp only [halfPlusOne_nat]
    exact loop_fault (resampleBody fftin ((fftin.length / 2 - d : Nat) : Int)
        : Nat → _ → Except (Fault E) _)
      (fun (_ : Nat) (t : List (Cplx R)) => t.length = fftin.length / 2 - d)
      Fault.outOfRange (fftin.length / 2 - d) (fftin.length / 2 + 1) 0 _
      (List.length_replicate _ _)
      (fun j t _ h2 ht =>
        ⟨_, resampleBody_ok fftin t _ j (by omega) ht (by omega), by simpa using ht⟩)
      (fun t ht => resampleBody_fault fftin t _ _ (by omega))
      (by omega)
  · unfold resample
    rw [initializeFFT_ok]
    simp only [halfPlusOne_nat]
    have h := loop_inv
      (resampleBody (c :: fftin) (((c :: fftin).length / 2 + 1 + d : Nat) : Int)
        : Nat → _ → Except (Fault E) _)
      (fun (_ : Nat) (t : List (Cplx R)) => t.length = (c :: fftin).length / 2 + 1 + d)
      ((c :: fftin).length / 2 + 1) 0
      (List.replicate ((c :: fftin).length / 2 + 1 + d) ⟨A.zero, A.zero⟩)
      (List.length_replicate _ _)
      (fun j t _ h2 ht =>
        ⟨_, resampleBody_ok (c :: fftin) t _ j
            (by simp only [List.length_cons] at h2 ⊢; omega) ht (by omega),
          by simpa using ht⟩)
    obtain ⟨f, hf, hlen⟩ := h
    exact ⟨f, hf, hlen⟩

/-- For odd N = 2m+1 every bin i ≤ m of the frame returned by `stochasticModelSynth`
carries the value built from the phase of iteration i. -/
theorem odd_frame_bins_carry_own_draw {R E : Type} (A : Arith R) (phase : Nat → R)
    (stocEnv : List R) (H : Int) (m : Nat) (fftStoc : List (Cplx R)) :
    ∃ f : List (Cplx R),
      (stochasticModelSynth A phase stocEnv H ((2 * m + 1 : Nat) : Int) fftStoc
        : Except (Fault E) _) = .ok f ∧
      ∀ i : Nat, i ≤ m → f[i]? = some (binValue A phase i) := by
  obtain ⟨f, hf, _, hb⟩ :=
    stochasticModelSynth_final (E := E) A phase stocEnv H (2 * m + 1) (by omega) fftStoc
  refine ⟨f, hf, ?_⟩
  intro i hi
  rw [hb i (by omega)]
  have : source (2 * m + 1) i = i := by
    unfold source
    split_ifs <;> omega
  rw [this]

end SpsModelSynth
